import Mathlib

/-!
Verification of the Community-Compiler frontend driver against its
specification.

The development shallowly embeds the three source files of the repository:

* `src/bootstrap/frontend/src/Ast.h` — the AST node hierarchy (node kinds,
  the `emit` flag defaulting to `true`, nullable children such as
  `AstIf::false_block` and `AstFn::body`);
* `src/bootstrap/frontend/src/DuskAssembly.cpp` — the driver: handler
  dispatch, the three recursive visitor traversals
  (`semantic_generation_node`, `semantic_analyse_node`,
  `generate_code_node`), `find_total_passes`, `parse_file`, and
  `compile_write_binary`;
* `src/bootstrap/frontend/src/AstPrettyPrinter.cpp` — the terminal
  syntax highlighter's `set_colour`.

The traversals are embedded as functions from AST nodes to an `Option`al
trace of observable events (handler invocation, scope `enter`/`leave`,
emitter calls).  `none` models a crash: the C++ recurses into a child
through a raw pointer without a null check, so a missing child is a null
dereference.  Event traces make the scope-balance, ordering and
emission properties of the claims directly statable.
-/

/-- The AST node kinds, mirroring `enum class AstNodeType` in `Ast.h`
(same order). -/
inductive NodeKind where
  | blockK | stringK | numberK | booleanK | arrayK | decK | ifK | fnK
  | fnCallK | loopK | continueK | breakK | structK | implK | attributeK
  | affixK | unaryK | binaryK | indexK | typeK | symbolK | returnK | externK
deriving DecidableEq

/-- Node kinds whose recursion case in the driver's three traversal
switches does not recurse into children: the `switch` in
`semantic_generation_node` / `semantic_analyse_node` /
`generate_code_node` only handles Block, If, Fn, Loop, Impl, Affix and
Extern; every other node gets its handler called and nothing more.  These
kinds are therefore leaves of the traversal even when (like `AstArray` or
`AstStruct`) the node owns children. -/
inductive LeafKind where
  | stringL | numberL | booleanL | arrayL | decL | fnCallL | continueL
  | breakL | structL | attributeL | unaryL | binaryL | indexL | typeL
  | symbolL
deriving DecidableEq

/-- The `AstNodeType` discriminant a traversal-leaf kind dispatches on. -/
def LeafKind.toNodeKind : LeafKind → NodeKind
  | .stringL => .stringK
  | .numberL => .numberK
  | .booleanL => .booleanK
  | .arrayL => .arrayK
  | .decL => .decK
  | .fnCallL => .fnCallK
  | .continueL => .continueK
  | .breakL => .breakK
  | .structL => .structK
  | .attributeL => .attributeK
  | .unaryL => .unaryK
  | .binaryL => .binaryK
  | .indexL => .indexK
  | .typeL => .typeK
  | .symbolL => .symbolK

/-- The data every `AstNode` carries (`Ast.h` lines 30-41): source
position and the `emit` flag.  In C++ the flag is a default member
initializer `bool emit = true`; the constructor only sets
`node_type`, `line` and `column`. -/
structure NodeData where
  line : Nat
  column : Nat
  emit : Bool
deriving DecidableEq

/-- A freshly constructed node's data: the `AstNode` constructor takes
`(node_type, line, column)` and leaves `emit` at its default `true`. -/
def NodeData.construct (line column : Nat) : NodeData :=
  { line := line, column := column, emit := true }

/-- The AST, as the driver's traversals see it.  Children that the C++
declared as possibly-null pointers and that the traversals guard or
dereference are `Option`s: `AstIf::false_block` (never null-checked by
the traversals) and `AstFn::body` (checked with `if(x->body)`).
`AstFn::return_type` is carried for the codegen claims.  All node kinds
outside the traversal `switch` are collapsed into `leafN` with their
discriminant. -/
inductive AstNode where
  | blockN (d : NodeData) (statements : List AstNode)
  | ifN (d : NodeData) (condition : AstNode) (true_block : AstNode)
      (false_block : Option AstNode)
  | fnN (d : NodeData) (name : String) (return_type : Option String)
      (body : Option AstNode)
  | loopN (d : NodeData) (body : AstNode)
  | implN (d : NodeData) (name : String) (block : AstNode)
  | affixN (d : NodeData) (name : String) (body : AstNode)
  | externN (d : NodeData) (decls : List AstNode)
  | returnN (d : NodeData) (expr : Option AstNode)
  | leafN (d : NodeData) (k : LeafKind)

/-- The `node_type` discriminant of a node. -/
def AstNode.kind : AstNode → NodeKind
  | .blockN .. => .blockK
  | .ifN .. => .ifK
  | .fnN .. => .fnK
  | .loopN .. => .loopK
  | .implN .. => .implK
  | .affixN .. => .affixK
  | .externN .. => .externK
  | .returnN .. => .returnK
  | .leafN _ k => k.toNodeKind

/-- The node data of a node. -/
def AstNode.data : AstNode → NodeData
  | .blockN d .. => d
  | .ifN d .. => d
  | .fnN d .. => d
  | .loopN d .. => d
  | .implN d .. => d
  | .affixN d .. => d
  | .externN d .. => d
  | .returnN d .. => d
  | .leafN d _ => d

/-- The same node with the `emit` flag of its own `NodeData` replaced
(children untouched). -/
def AstNode.withEmit : AstNode → Bool → AstNode
  | .blockN d ss, b => .blockN { d with emit := b } ss
  | .ifN d c tb fb, b => .ifN { d with emit := b } c tb fb
  | .fnN d nm rt bd, b => .fnN { d with emit := b } nm rt bd
  | .loopN d bd, b => .loopN { d with emit := b } bd
  | .implN d nm blk, b => .implN { d with emit := b } nm blk
  | .affixN d nm bd, b => .affixN { d with emit := b } nm bd
  | .externN d ds, b => .externN { d with emit := b } ds
  | .returnN d e, b => .returnN { d with emit := b } e
  | .leafN d k, b => .leafN { d with emit := b } k

/-- Observable events of one traversal: `gen k` is the dispatch of the
registered handler for node kind `k` (the `handler->generate` /
`validate_semantics`+`validate_types` call), `enter`/`leave` are
`scopes.front()->enter(..)` / `->leave()`, and `ret` is the
`il_emitter._return()` call in `generate_code_node`'s `AstFn` case. -/
inductive Ev where
  | gen (k : NodeKind)
  | enter
  | leave
  | ret
deriving DecidableEq

mutual

/-- `DuskAssembly::semantic_generation_node` (DuskAssembly.cpp 210-294):
dispatch the matching semantic-generator handler, then recurse per the
`switch`.  `If` recurses into `true_block` and `false_block` with no
null check — a null `false_block` is a null dereference, modelled as
`none`.  `Fn` guards its body with `if(x->body)`.  `Loop` calls
`leave()` twice (line 258).  The running pass is only forwarded to the
handler (after being written into `handler->pass`); the recursion
structure does not depend on it. -/
def semantic_generation_node : AstNode → Option (List Ev)
  | .blockN _ ss => do
      let ts ← semGenList ss
      pure (Ev.gen .blockK :: ts)
  | .ifN _ _ tb fb => do
      let t1 ← semantic_generation_node tb
      let t2 ← (match fb with
        | some b => semantic_generation_node b
        | none => none)
      pure (Ev.gen .ifK :: Ev.enter :: (t1 ++ t2 ++ [Ev.leave]))
  | .fnN _ _ _ body =>
      match body with
      | some b => do
          let t ← semantic_generation_node b
          pure (Ev.gen .fnK :: Ev.enter :: (t ++ [Ev.leave]))
      | none => some [Ev.gen .fnK, Ev.enter, Ev.leave]
  | .loopN _ b => do
      let t ← semantic_generation_node b
      pure (Ev.gen .loopK :: Ev.enter :: (t ++ [Ev.leave, Ev.leave]))
  | .implN _ _ blk => do
      let t ← semantic_generation_node blk
      pure (Ev.gen .implK :: Ev.enter :: (t ++ [Ev.leave]))
  | .affixN _ _ b => do
      let t ← semantic_generation_node b
      pure (Ev.gen .affixK :: Ev.enter :: (t ++ [Ev.leave]))
  | .externN _ ds => do
      let ts ← semGenList ds
      pure (Ev.gen .externK :: Ev.enter :: (ts ++ [Ev.leave]))
  | .returnN _ _ => some [Ev.gen .returnK]
  | .leafN _ k => some [Ev.gen k.toNodeKind]

/-- The `for(auto stmt : ...)` loops of `semantic_generation_node`. -/
def semGenList : List AstNode → Option (List Ev)
  | [] => some []
  | n :: rest => do
      let t ← semantic_generation_node n
      let ts ← semGenList rest
      pure (t ++ ts)

end

mutual

/-- `DuskAssembly::semantic_analyse_node` (DuskAssembly.cpp 301-387):
identical recursion structure to semantic generation except that the
`Loop` case calls `leave()` once.  The handler dispatch calls both
`validate_semantics` and `validate_types`; the dispatch is one `gen`
event. -/
def semantic_analyse_node : AstNode → Option (List Ev)
  | .blockN _ ss => do
      let ts ← semAnList ss
      pure (Ev.gen .blockK :: ts)
  | .ifN _ _ tb fb => do
      let t1 ← semantic_analyse_node tb
      let t2 ← (match fb with
        | some b => semantic_analyse_node b
        | none => none)
      pure (Ev.gen .ifK :: Ev.enter :: (t1 ++ t2 ++ [Ev.leave]))
  | .fnN _ _ _ body =>
      match body with
      | some b => do
          let t ← semantic_analyse_node b
          pure (Ev.gen .fnK :: Ev.enter :: (t ++ [Ev.leave]))
      | none => some [Ev.gen .fnK, Ev.enter, Ev.leave]
  | .loopN _ b => do
      let t ← semantic_analyse_node b
      pure (Ev.gen .loopK :: Ev.enter :: (t ++ [Ev.leave]))
  | .implN _ _ blk => do
      let t ← semantic_analyse_node blk
      pure (Ev.gen .implK :: Ev.enter :: (t ++ [Ev.leave]))
  | .affixN _ _ b => do
      let t ← semantic_analyse_node b
      pure (Ev.gen .affixK :: Ev.enter :: (t ++ [Ev.leave]))
  | .externN _ ds => do
      let ts ← semAnList ds
      pure (Ev.gen .externK :: Ev.enter :: (ts ++ [Ev.leave]))
  | .returnN _ _ => some [Ev.gen .returnK]
  | .leafN _ k => some [Ev.gen k.toNodeKind]

/-- The `for(auto stmt : ...)` loops of `semantic_analyse_node`. -/
def semAnList : List AstNode → Option (List Ev)
  | [] => some []
  | n :: rest => do
      let t ← semantic_analyse_node n
      let ts ← semAnList rest
      pure (t ++ ts)

end

mutual

/-- `DuskAssembly::generate_code_node` (DuskAssembly.cpp 394-480):
same recursion structure as semantic analysis, except the `Fn` case
additionally calls `il_emitter._return()` after generating the body —
unconditionally, with no test of the body's last statement or of the
declared return type.  The `emit` flag of the node is never consulted. -/
def generate_code_node : AstNode → Option (List Ev)
  | .blockN _ ss => do
      let ts ← genCodeList ss
      pure (Ev.gen .blockK :: ts)
  | .ifN _ _ tb fb => do
      let t1 ← generate_code_node tb
      let t2 ← (match fb with
        | some b => generate_code_node b
        | none => none)
      pure (Ev.gen .ifK :: Ev.enter :: (t1 ++ t2 ++ [Ev.leave]))
  | .fnN _ _ _ body =>
      match body with
      | some b => do
          let t ← generate_code_node b
          pure (Ev.gen .fnK :: Ev.enter :: (t ++ [Ev.ret, Ev.leave]))
      | none => some [Ev.gen .fnK, Ev.enter, Ev.leave]
  | .loopN _ b => do
      let t ← generate_code_node b
      pure (Ev.gen .loopK :: Ev.enter :: (t ++ [Ev.leave]))
  | .implN _ _ blk => do
      let t ← generate_code_node blk
      pure (Ev.gen .implK :: Ev.enter :: (t ++ [Ev.leave]))
  | .affixN _ _ b => do
      let t ← generate_code_node b
      pure (Ev.gen .affixK :: Ev.enter :: (t ++ [Ev.leave]))
  | .externN _ ds => do
      let ts ← genCodeList ds
      pure (Ev.gen .externK :: Ev.enter :: (ts ++ [Ev.leave]))
  | .returnN _ _ => some [Ev.gen .returnK]
  | .leafN _ k => some [Ev.gen k.toNodeKind]

/-- The `for(auto stmt : ...)` loops of `generate_code_node`. -/
def genCodeList : List AstNode → Option (List Ev)
  | [] => some []
  | n :: rest => do
      let t ← generate_code_node n
      let ts ← genCodeList rest
      pure (t ++ ts)

end

/-- Whether an event is a scope `enter`. -/
def Ev.isEnter : Ev → Bool
  | .enter => true
  | _ => false

/-- Whether an event is a scope `leave`. -/
def Ev.isLeave : Ev → Bool
  | .leave => true
  | _ => false

/-- Whether an event is the emitter's `_return()`. -/
def Ev.isRet : Ev → Bool
  | .ret => true
  | _ => false

/-- Number of scope `enter` calls in a trace. -/
def countEnter (t : List Ev) : Nat := t.countP Ev.isEnter

/-- Number of scope `leave` calls in a trace. -/
def countLeave (t : List Ev) : Nat := t.countP Ev.isLeave

/-- Number of `il_emitter._return()` calls in a trace. -/
def countRet (t : List Ev) : Nat := t.countP Ev.isRet

/-- The node kinds whose traversal case performs `enter` before the
children and `leave` after: If, Fn, Loop, Impl, Affix, Extern.  Block is
deliberately absent — its case is a plain statement loop. -/
def introducesScope : AstNode → Bool
  | .ifN .. => true
  | .fnN .. => true
  | .loopN .. => true
  | .implN .. => true
  | .affixN .. => true
  | .externN .. => true
  | _ => false

/-- A registered visitor handler as the driver sees it: the node kind it
handles (`type_handler`) and its mutable `pass` field (`int` in C++). -/
structure Handler where
  type_handler : NodeKind
  pass : Int
deriving DecidableEq

/-- The handler-dispatch loop at the top of `semantic_generation_node`
and `semantic_analyse_node` (DuskAssembly.cpp 212-218 and 302-310):
walk the handler list; on the first handler whose `type_handler` equals
the node's `node_type`, assign `handler->pass = pass`, invoke it, and
`break`.  Returns the handler list after the mutation and whether a
handler was invoked.  Note that no comparison of `handler->pass`
against the running pass occurs anywhere. -/
def handler_dispatch (handlers : List Handler) (k : NodeKind) (p : Int) :
    List Handler × Bool :=
  match handlers with
  | [] => ([], false)
  | h :: rest =>
    if h.type_handler = k then ({ h with pass := p } :: rest, true)
    else
      let r := handler_dispatch rest k p
      (h :: r.1, r.2)

/-- `find_total_passes` (DuskAssembly.cpp 106-122): the maximum `pass`
field over the semantic-analysis handlers and then the
semantic-generation handlers, starting from 0.  The code-generator
handlers are not consulted, and the driver never calls this function. -/
def find_total_passes (semAnHandlers semGenHandlers : List Handler) : Int :=
  let r1 := semAnHandlers.foldl (fun r h => if h.pass > r then h.pass else r) 0
  semGenHandlers.foldl (fun r h => if h.pass > r then h.pass else r) r1

/-- What the driver can observe about one queued file without running
the missing lexer/parser/analyzer sources: the lexical errors the lexer
reports, the errors the first parser invocation reports, and the errors
semantic analysis would accumulate for it. -/
structure FileInput where
  lexErrors : List String
  parseErrors1 : List String
  analysisErrors : List String
deriving DecidableEq

/-- One result of invoking the parser: the root it built (abstracted to
an identifier) and its error list. -/
structure ParseOut where
  root : Nat
  errors : List String
deriving DecidableEq

/-- The outcome of `DuskAssembly::parse_file` for one file: which root
the returned `Ast` holds (`none` models the C++ `nullptr` left in
`ast.root` on the error paths) and how many times `parser.parse` was
invoked. -/
structure ParseFileResult where
  kept : Option Nat
  invocations : Nat
deriving DecidableEq

/-- `DuskAssembly::parse_file` (DuskAssembly.cpp 179-202).  The parser
is abstracted as a map from invocation index to its result, so a
stateful parser that answers differently on the two runs is
representable.  If lexing reported errors, `handle_errors` renders them
and the parser is never invoked.  Otherwise the parser runs once, its
AST is deleted (`delete tmp.root`), and only if this first run's error
list is empty does the parser run a second time, whose root is kept. -/
def parse_file (lexErrors : List String) (parse : Nat → ParseOut) :
    ParseFileResult :=
  if lexErrors.isEmpty then
    let first := parse 0
    if first.errors.isEmpty then
      { kept := some (parse 1).root, invocations := 2 }
    else
      { kept := none, invocations := 1 }
  else
    { kept := none, invocations := 0 }

/-- The driver-level steps `compile_write_binary` performs, in order.
`renderDiags` is a `handle_errors` call over a non-empty error list;
`parseInvoke f k` is the `k`-th `parser.parse` invocation for file `f`;
`semGenFile f p` / `semAnFile f p` are `semantic_generation(ast_f, p)` /
`semantic_analysis(ast_f, p)`; `cgFile f` is `generate_code(ast_f)`. -/
inductive DStep where
  | lexFile (f : Nat)
  | renderDiags (errs : List String)
  | parseInvoke (f : Nat) (k : Nat)
  | semGenFile (f : Nat) (pass : Nat)
  | semAnFile (f : Nat) (pass : Nat)
  | cgFile (f : Nat)
  | writeBinary
deriving DecidableEq

/-- The steps `DuskAssembly::parse_file` performs for file number `f`:
lex; if lexing errored, render those diagnostics and stop parsing this
file; otherwise parse once, and either render the first run's errors or
parse a second time. -/
def parse_file_steps (f : Nat) (inp : FileInput) : List DStep :=
  DStep.lexFile f ::
    (if inp.lexErrors.isEmpty then
      DStep.parseInvoke f 0 ::
        (if inp.parseErrors1.isEmpty then [DStep.parseInvoke f 1]
         else [DStep.renderDiags inp.parseErrors1])
     else [DStep.renderDiags inp.lexErrors])

/-- The `for(auto file : queued_files) asts.push_back(parse_file(file))`
loop, with `i` the index of the first remaining file. -/
def parseSegment (i : Nat) : List FileInput → List DStep
  | [] => []
  | inp :: rest => parse_file_steps i inp ++ parseSegment (i + 1) rest

/-- Whether `parse_file` left a root in the returned `Ast`: the root is
kept only when lexing and the first parser run both reported no errors;
on either error path `ast.root` stays the default `nullptr`.  (This is
the same condition under which the `parse_file` model above returns
`kept = some _`.) -/
def FileInput.hasRoot (inp : FileInput) : Bool :=
  inp.lexErrors.isEmpty && inp.parseErrors1.isEmpty

/-- The inner `for(auto ast : asts)` of the pass loop: one
`semantic_generation(ast, pass)` then `semantic_analysis(ast, pass)`
per queued AST in queue order, `f` being the index of the first
remaining file.  `semantic_generation_node(ast.root, pass)` reads
`node->node_type` first: for a file whose lexing or first parse
errored, `ast.root` is still `nullptr` and this first call is a null
dereference — modelled as `none`, like every other null dereference in
this development. -/
def pass_over_files (p : Nat) : Nat → List FileInput → Option (List DStep)
  | _, [] => some []
  | f, inp :: rest =>
    if inp.hasRoot then
      (pass_over_files p (f + 1) rest).map
        (fun ts => DStep.semGenFile f p :: DStep.semAnFile f p :: ts)
    else none

/-- The literal `for(int pass = 0; pass < 10; pass++)` loop, over the
list of pass numbers it runs. -/
def pass_loop (files : List FileInput) : List Nat → Option (List DStep)
  | [] => some []
  | p :: ps => do
      let s ← pass_over_files p 0 files
      let ts ← pass_loop files ps
      pure (s ++ ts)

/-- The `for(auto ast : asts) generate_code(ast)` loop after the pass
loop; `generate_code_node(ast.root)` dereferences a null root the same
way. -/
def cg_over_files : Nat → List FileInput → Option (List DStep)
  | _, [] => some []
  | f, inp :: rest =>
    if inp.hasRoot then
      (cg_over_files (f + 1) rest).map (fun ts => DStep.cgFile f :: ts)
    else none

/-- `DuskAssembly::compile_write_binary` (DuskAssembly.cpp 147-177):
parse every queued file (pushing the resulting `Ast` into `asts` even
when its root is null), then run the fixed pass loop
`for(int pass = 0; pass < 10; pass++)` — `find_total_passes` is never
consulted — then `generate_code` on each AST, then write the IL
stream.  No error list is inspected anywhere in this function: the
`analysisErrors` of the inputs are never read.  A file with lexical or
first-parse errors leaves a null root, so the first
`semantic_generation` call on it (file order, pass 0) crashes the
whole run: the trace is `none` and no binary is written. -/
def compile_write_binary (files : List FileInput) : Option (List DStep) := do
  let ps ← pass_loop files (List.range 10)
  let cs ← cg_over_files 0 files
  pure (parseSegment 0 files ++ ps ++ cs ++ [DStep.writeBinary])

/-- Token kinds, as used by `set_colour` in `AstPrettyPrinter.cpp`:
the keyword kinds coloured magenta, the literal kinds coloured green,
the comment kinds coloured grey, and the kinds the `Symbol` case
compares neighbours against.  All remaining kinds take the `default`
branch. -/
inductive TokenType where
  | ifT | elseT | continueT | breakT | loopT | inT | fnT | opT
  | infixT | prefixT | suffixT | externT | structT | implT | varT
  | letT | returnT
  | integerLiteralT | floatLiteralT | stringLiteralT | booleanT
  | singleLineCommentT | multilineCommentT
  | symbolT | openParenT | colonT | otherT
deriving DecidableEq

/-- A token as `set_colour` reads it: kind, source offset and raw text. -/
structure Token where
  type : TokenType
  offset : Nat
  raw : String
deriving DecidableEq

/-- The colour escape `set_colour` prints for one covering token. -/
inductive Colour where
  | magenta | green | grey | blue | red | resetC
deriving DecidableEq

/-- Whether a token kind is one of the keyword cases of `set_colour`. -/
def TokenType.isKeywordCase : TokenType → Bool
  | .ifT | .elseT | .continueT | .breakT | .loopT | .inT | .fnT | .opT
  | .infixT | .prefixT | .suffixT | .externT | .structT | .implT
  | .varT | .letT | .returnT => true
  | _ => false

/-- Whether a token kind is one of the literal cases of `set_colour`. -/
def TokenType.isLiteralCase : TokenType → Bool
  | .integerLiteralT | .floatLiteralT | .stringLiteralT | .booleanT => true
  | _ => false

/-- Whether a token kind is one of the comment cases of `set_colour`. -/
def TokenType.isCommentCase : TokenType → Bool
  | .singleLineCommentT | .multilineCommentT => true
  | _ => false

/-- The `TokenType::Symbol` case of `set_colour`
(AstPrettyPrinter.cpp 558-569): read `tokens[j + 1]` with no bound
check — if `j` is the last index this is an out-of-bounds read,
modelled as `none`; when that neighbour is not an open parenthesis,
read `tokens[j - 1]` — `j` is `unsigned`, so at `j = 0` the index wraps
around and the read is out of bounds, also `none`. -/
def symbolColour (tokens : List Token) (j : Nat) : Option Colour :=
  match tokens.get? (j + 1) with
  | none => none
  | some t1 =>
    if t1.type = .openParenT then some .blue
    else if j = 0 then none
    else
      match tokens.get? (j - 1) with
      | none => none
      | some t0 => if t0.type = .colonT then some .red else some .resetC

/-- The `switch(token.type)` of `set_colour` for the covering token at
index `j`. -/
def colourFor (tokens : List Token) (j : Nat) (tok : Token) : Option Colour :=
  if tok.type.isKeywordCase then some .magenta
  else if tok.type.isLiteralCase then some .green
  else if tok.type.isCommentCase then some .grey
  else if tok.type = .symbolT then symbolColour tokens j
  else some .resetC

/-- The `for(unsigned int j = 0; ...)` loop of `set_colour`: `j` is the
index of the first token of `rest` within `tokens`. -/
def set_colour_go (tokens : List Token) (i : Nat) :
    Nat → List Token → Option (List Colour)
  | _, [] => some []
  | j, tok :: rest =>
    if tok.offset ≤ i ∧ i < tok.offset + tok.raw.length then do
      let c ← colourFor tokens j tok
      let cs ← set_colour_go tokens i (j + 1) rest
      pure (c :: cs)
    else set_colour_go tokens i (j + 1) rest

/-- `set_colour(i, tokens)` (AstPrettyPrinter.cpp 520-577): for every
token covering source offset `i` (the loop never breaks), print the
colour chosen by the `switch`.  The result is the list of colours
printed, or `none` if any out-of-bounds vector read occurred. -/
def set_colour (i : Nat) (tokens : List Token) : Option (List Colour) :=
  set_colour_go tokens i 0 tokens

/-- C1 (code bug): the spec and the claim demand that every pass of
every visitor family performs as many scope `enter` calls as `leave`
calls, with zero net stack-depth change.  The semantic-generation
traversal violates this: its `AstLoop` case (DuskAssembly.cpp 258)
calls `scopes.front()->leave()` twice after one `enter`.  On the AST
`{ loop { } }` the semantic-generation pass performs 1 `enter` and 2
`leave` calls — a net depth change of −1, popping past the loop's
parent scope.  The spec's own design notes call this double `leave`
"almost certainly a bug". -/
theorem c1_loop_scope_imbalance :
    (semantic_generation_node
        (.blockN (NodeData.construct 1 1)
          [.loopN (NodeData.construct 1 1)
            (.blockN (NodeData.construct 1 6) [])])).map
      (fun t => (countEnter t, countLeave t)) = some (1, 2) := by
  simp [semantic_generation_node, semGenList, countEnter, countLeave,
    List.countP_cons, Ev.isEnter, Ev.isLeave]

/-- C4 (counterexample): the claim lists `Block` among the
scope-introducing kinds and says every Block node gets its own scope
entry and exit in all three traversals.  It does not: the `AstBlock`
case of all three traversal switches only iterates the statements, so a
block with a single symbol statement produces zero `enter` events in
every family. -/
theorem c4_block_gets_no_scope :
    ((semantic_generation_node
        (.blockN (NodeData.construct 1 1)
          [.leafN (NodeData.construct 1 3) .symbolL])).map countEnter
      = some 0)
    ∧ ((semantic_analyse_node
        (.blockN (NodeData.construct 1 1)
          [.leafN (NodeData.construct 1 3) .symbolL])).map countEnter
      = some 0)
    ∧ ((generate_code_node
        (.blockN (NodeData.construct 1 1)
          [.leafN (NodeData.construct 1 3) .symbolL])).map countEnter
      = some 0) := by
  refine ⟨?_, ?_, ?_⟩ <;>
    simp [semantic_generation_node, semGenList, semantic_analyse_node,
      semAnList, generate_code_node, genCodeList, countEnter,
      List.countP_cons, Ev.isEnter]

/-- C4 (amended): for the six kinds that do introduce a scope (If, Fn,
Loop, Impl, Affix, Extern) every family that completes performs the
handler dispatch, then `enter`, then the children's events, then a
final `leave`; Block nodes contribute no scope events of their own, in
any family; semantic analysis and code generation leave scopes exactly
once per entered scope, while semantic generation performs a second
`leave` for Loop nodes. -/
theorem c4_amended :
    (∀ n t, introducesScope n = true → semantic_generation_node n = some t →
      ∃ m, t = Ev.gen n.kind :: Ev.enter :: m ++ [Ev.leave])
    ∧ (∀ n t, introducesScope n = true → semantic_analyse_node n = some t →
      ∃ m, t = Ev.gen n.kind :: Ev.enter :: m ++ [Ev.leave])
    ∧ (∀ n t, introducesScope n = true → generate_code_node n = some t →
      ∃ m, t = Ev.gen n.kind :: Ev.enter :: m ++ [Ev.leave])
    ∧ (∀ d ss,
        semantic_generation_node (.blockN d ss)
          = (semGenList ss).map (fun ts => Ev.gen .blockK :: ts)
        ∧ semantic_analyse_node (.blockN d ss)
          = (semAnList ss).map (fun ts => Ev.gen .blockK :: ts)
        ∧ generate_code_node (.blockN d ss)
          = (genCodeList ss).map (fun ts => Ev.gen .blockK :: ts))
    ∧ (∀ d b,
        semantic_generation_node (.loopN d b)
          = (semantic_generation_node b).map
              (fun t => Ev.gen .loopK :: Ev.enter :: (t ++ [Ev.leave, Ev.leave]))
        ∧ semantic_analyse_node (.loopN d b)
          = (semantic_analyse_node b).map
              (fun t => Ev.gen .loopK :: Ev.enter :: (t ++ [Ev.leave]))
        ∧ generate_code_node (.loopN d b)
          = (generate_code_node b).map
              (fun t => Ev.gen .loopK :: Ev.enter :: (t ++ [Ev.leave]))) := by
  refine ⟨?_, ?_, ?_, ?_, ?_⟩
  · intro n t hs h
    cases n with
    | blockN d ss => simp [introducesScope] at hs
    | returnN d e => simp [introducesScope] at hs
    | leafN d k => simp [introducesScope] at hs
    | ifN d c tb fb =>
      cases fb with
      | none =>
        cases h1 : semantic_generation_node tb <;>
          simp [semantic_generation_node, h1] at h
      | some b =>
        cases h1 : semantic_generation_node tb <;>
          cases h2 : semantic_generation_node b <;>
            simp [semantic_generation_node, h1, h2] at h
        rename_i t1 t2
        subst h
        exact ⟨t1 ++ t2, by simp [AstNode.kind]⟩
    | fnN d nm rt bd =>
      cases bd with
      | none =>
        simp [semantic_generation_node] at h
        subst h
        exact ⟨[], by simp [AstNode.kind]⟩
      | some b =>
        cases h1 : semantic_generation_node b <;>
          simp [semantic_generation_node, h1] at h
        rename_i tb
        subst h
        exact ⟨tb, by simp [AstNode.kind]⟩
    | loopN d b =>
      cases h1 : semantic_generation_node b <;>
        simp [semantic_generation_node, h1] at h
      rename_i tb
      subst h
      exact ⟨tb ++ [Ev.leave], by simp [AstNode.kind]⟩
    | implN d nm blk =>
      cases h1 : semantic_generation_node blk <;>
        simp [semantic_generation_node, h1] at h
      rename_i tb
      subst h
      exact ⟨tb, by simp [AstNode.kind]⟩
    | affixN d nm b =>
      cases h1 : semantic_generation_node b <;>
        simp [semantic_generation_node, h1] at h
      rename_i tb
      subst h
      exact ⟨tb, by simp [AstNode.kind]⟩
    | externN d ds =>
      cases h1 : semGenList ds <;>
        simp [semantic_generation_node, h1] at h
      rename_i tb
      subst h
      exact ⟨tb, by simp [AstNode.kind]⟩
  · intro n t hs h
    cases n with
    | blockN d ss => simp [introducesScope] at hs
    | returnN d e => simp [introducesScope] at hs
    | leafN d k => simp [introducesScope] at hs
    | ifN d c tb fb =>
      cases fb with
      | none =>
        cases h1 : semantic_analyse_node tb <;>
          simp [semantic_analyse_node, h1] at h
      | some b =>
        cases h1 : semantic_analyse_node tb <;>
          cases h2 : semantic_analyse_node b <;>
            simp [semantic_analyse_node, h1, h2] at h
        rename_i t1 t2
        subst h
        exact ⟨t1 ++ t2, by simp [AstNode.kind]⟩
    | fnN d nm rt bd =>
      cases bd with
      | none =>
        simp [semantic_analyse_node] at h
        subst h
        exact ⟨[], by simp [AstNode.kind]⟩
      | some b =>
        cases h1 : semantic_analyse_node b <;>
          simp [semantic_analyse_node, h1] at h
        rename_i tb
        subst h
        exact ⟨tb, by simp [AstNode.kind]⟩
    | loopN d b =>
      cases h1 : semantic_analyse_node b <;>
        simp [semantic_analyse_node, h1] at h
      rename_i tb
      subst h
      exact ⟨tb, by simp [AstNode.kind]⟩
    | implN d nm blk =>
      cases h1 : semantic_analyse_node blk <;>
        simp [semantic_analyse_node, h1] at h
      rename_i tb
      subst h
      exact ⟨tb, by simp [AstNode.kind]⟩
    | affixN d nm b =>
      cases h1 : semantic_analyse_node b <;>
        simp [semantic_analyse_node, h1] at h
      rename_i tb
      subst h
      exact ⟨tb, by simp [AstNode.kind]⟩
    | externN d ds =>
      cases h1 : semAnList ds <;>
        simp [semantic_analyse_node, h1] at h
      rename_i tb
      subst h
      exact ⟨tb, by simp [AstNode.kind]⟩
  · intro n t hs h
    cases n with
    | blockN d ss => simp [introducesScope] at hs
    | returnN d e => simp [introducesScope] at hs
    | leafN d k => simp [introducesScope] at hs
    | ifN d c tb fb =>
      cases fb with
      | none =>
        cases h1 : generate_code_node tb <;>
          simp [generate_code_node, h1] at h
      | some b =>
        cases h1 : generate_code_node tb <;>
          cases h2 : generate_code_node b <;>
            simp [generate_code_node, h1, h2] at h
        rename_i t1 t2
        subst h
        exact ⟨t1 ++ t2, by simp [AstNode.kind]⟩
    | fnN d nm rt bd =>
      cases bd with
      | none =>
        simp [generate_code_node] at h
        subst h
        exact ⟨[], by simp [AstNode.kind]⟩
      | some b =>
        cases h1 : generate_code_node b <;>
          simp [generate_code_node, h1] at h
        rename_i tb
        subst h
        exact ⟨tb ++ [Ev.ret], by simp [AstNode.kind]⟩
    | loopN d b =>
      cases h1 : generate_code_node b <;>
        simp [generate_code_node, h1] at h
      rename_i tb
      subst h
      exact ⟨tb, by simp [AstNode.kind]⟩
    | implN d nm blk =>
      cases h1 : generate_code_node blk <;>
        simp [generate_code_node, h1] at h
      rename_i tb
      subst h
      exact ⟨tb, by simp [AstNode.kind]⟩
    | affixN d nm b =>
      cases h1 : generate_code_node b <;>
        simp [generate_code_node, h1] at h
      rename_i tb
      subst h
      exact ⟨tb, by simp [AstNode.kind]⟩
    | externN d ds =>
      cases h1 : genCodeList ds <;>
        simp [generate_code_node, h1] at h
      rename_i tb
      subst h
      exact ⟨tb, by simp [AstNode.kind]⟩
  · intro d ss
    refine ⟨?_, ?_, ?_⟩ <;>
      first
        | (cases h : semGenList ss <;>
            simp [semantic_generation_node, h])
        | (cases h : semAnList ss <;>
            simp [semantic_analyse_node, h])
        | (cases h : genCodeList ss <;>
            simp [generate_code_node, h])
  · intro d b
    refine ⟨?_, ?_, ?_⟩
    · cases h : semantic_generation_node b <;>
        simp [semantic_generation_node, h]
    · cases h : semantic_analyse_node b <;>
        simp [semantic_analyse_node, h]
    · cases h : generate_code_node b <;>
        simp [generate_code_node, h]

/-- C4 (witness for the amended claim): applying the amended theorem to
a concrete Loop node in the semantic-generation family. -/
theorem c4_amended_witness :
    ∃ m, [Ev.gen .loopK, Ev.enter, Ev.gen .blockK, Ev.leave, Ev.leave]
      = Ev.gen .loopK :: Ev.enter :: m ++ [Ev.leave] :=
  c4_amended.1
    (.loopN (NodeData.construct 1 1) (.blockN (NodeData.construct 1 6) []))
    [Ev.gen .loopK, Ev.enter, Ev.gen .blockK, Ev.leave, Ev.leave]
    (by simp [introducesScope])
    (by simp [semantic_generation_node, semGenList])

/-- C5 (counterexample): the claim says the implicit `return` opcode is
emitted only when the body's last statement is not a return and the
function has no declared return type.  But `generate_code_node`'s
`AstFn` case calls `il_emitter._return()` unconditionally after the
body (DuskAssembly.cpp 431): for `fn main() -> i64 { return ...; }` —
last statement a return, return type declared — the traversal still
appends one `return` opcode. -/
theorem c5_return_emitted_unconditionally :
    generate_code_node
        (.fnN (NodeData.construct 1 1) "main" (some "i64")
          (some (.blockN (NodeData.construct 1 20)
            [.returnN (NodeData.construct 1 22) none])))
      = some [Ev.gen .fnK, Ev.enter, Ev.gen .blockK, Ev.gen .returnK,
          Ev.ret, Ev.leave] := by
  simp [generate_code_node, genCodeList]

/-- C5 (amended): code generation appends the `return` opcode after the
body of every function that has a body, unconditionally — regardless of
the body's last statement and of the declared return type; a function
without a body gets no such opcode. -/
theorem c5_amended :
    ∀ (d : NodeData) (name : String) (rt : Option String) (b : AstNode),
      generate_code_node (.fnN d name rt (some b))
        = (generate_code_node b).map
            (fun t => Ev.gen .fnK :: Ev.enter :: (t ++ [Ev.ret, Ev.leave]))
      ∧ generate_code_node (.fnN d name rt none)
        = some [Ev.gen .fnK, Ev.enter, Ev.leave] := by
  intro d name rt b
  refine ⟨?_, by simp [generate_code_node]⟩
  cases h : generate_code_node b <;> simp [generate_code_node, h]

/-- C8 (counterexample): the claim says every node whose `emit` flag is
false is skipped by code generation with no IL emitted for it or its
subtree.  But `generate_code_node` never reads the `emit` flag: for a
function node with `emit = false` the handler is still dispatched, the
scope entered, the body visited and the `return` opcode emitted. -/
theorem c8_emit_false_not_skipped :
    generate_code_node
        (.fnN { line := 3, column := 1, emit := false } "g" none
          (some (.blockN { line := 3, column := 8, emit := false } [])))
      = some [Ev.gen .fnK, Ev.enter, Ev.gen .blockK, Ev.ret, Ev.leave] := by
  simp [generate_code_node, genCodeList]

/-- C8 (amended): every freshly constructed AST node has its `emit`
flag set to `true` (the `AstNode` constructor leaves the default member
initializer untouched), but code generation does not consult the flag:
the trace of a node is unchanged by flipping its `emit` flag, so
`emit = false` nodes are not skipped by the driver's traversal. -/
theorem c8_amended :
    (∀ line column, (NodeData.construct line column).emit = true)
    ∧ (∀ (n : AstNode) (b : Bool),
        generate_code_node (n.withEmit b) = generate_code_node n) := by
  refine ⟨fun _ _ => rfl, ?_⟩
  intro n b
  cases n with
  | ifN d c tb fb =>
    cases fb <;> simp [AstNode.withEmit, generate_code_node]
  | fnN d nm rt bd =>
    cases bd <;> simp [AstNode.withEmit, generate_code_node]
  | _ => simp [AstNode.withEmit, generate_code_node]

/-- C9 (code bug): an `AstIf` whose `false_block` is absent (null, as
`Ast.h` permits and as an `if` without `else` produces) crashes all
three traversals: unlike the `AstFn` case, which guards its body with
`if(x->body)`, the `AstIf` cases recurse into `x->false_block` with no
null check (DuskAssembly.cpp 234, 328, 419), dereferencing a null
pointer.  The claim that the traversals are total on such a node is
right as intent; the code is wrong.  A bodiless function, by contrast,
completes. -/
theorem c9_missing_false_block_crashes :
    semantic_generation_node
        (.ifN (NodeData.construct 4 1) (.leafN (NodeData.construct 4 4) .booleanL)
          (.blockN (NodeData.construct 4 9) []) none) = none
    ∧ semantic_analyse_node
        (.ifN (NodeData.construct 4 1) (.leafN (NodeData.construct 4 4) .booleanL)
          (.blockN (NodeData.construct 4 9) []) none) = none
    ∧ generate_code_node
        (.ifN (NodeData.construct 4 1) (.leafN (NodeData.construct 4 4) .booleanL)
          (.blockN (NodeData.construct 4 9) []) none) = none
    ∧ generate_code_node (.fnN (NodeData.construct 5 1) "h" none none)
      = some [Ev.gen .fnK, Ev.enter, Ev.leave] := by
  refine ⟨?_, ?_, ?_, ?_⟩ <;>
    simp [semantic_generation_node, semantic_analyse_node,
      generate_code_node, semGenList, semAnList, genCodeList]

/-- The inner pass-loop iteration in closed form: it completes exactly
when every remaining file has a root, and then yields the generation
and analysis steps of the files in queue order. -/
theorem pass_over_files_eq (p : Nat) (files : List FileInput) :
    ∀ f, pass_over_files p f files
      = if files.all FileInput.hasRoot then
          some ((List.range files.length).flatMap
            (fun i => [DStep.semGenFile (f + i) p, DStep.semAnFile (f + i) p]))
        else none := by
  induction files with
  | nil => intro f; rfl
  | cons a t ih =>
    intro f
    by_cases ha : a.hasRoot
    · rw [show pass_over_files p f (a :: t)
          = (pass_over_files p (f + 1) t).map
              (fun ts => DStep.semGenFile f p :: DStep.semAnFile f p :: ts)
          from by simp [pass_over_files, ha]]
      rw [ih (f + 1)]
      by_cases ht : t.all FileInput.hasRoot
      · rw [if_pos ht, if_pos (by simp [List.all_cons, ha, ht])]
        have harg : (fun i : Nat => [DStep.semGenFile (f + Nat.succ i) p,
              DStep.semAnFile (f + Nat.succ i) p])
            = fun i => [DStep.semGenFile (f + 1 + i) p,
                DStep.semAnFile (f + 1 + i) p] := by
          funext i
          rw [show f + Nat.succ i = f + 1 + i from by omega]
        simp only [List.length_cons]
        rw [List.range_succ_eq_map, List.flatMap_cons, List.flatMap_map]
        try simp only [Function.comp_def]
        rw [harg]
        simp
      · rw [if_neg ht, if_neg (by simp [ht])]
        rfl
    · rw [show pass_over_files p f (a :: t) = none
          from by simp [pass_over_files, ha]]
      rw [if_neg (by simp [ha])]

/-- The pass loop in closed form, when every queued file has a root. -/
theorem pass_loop_ok (files : List FileInput)
    (hall : files.all FileInput.hasRoot = true) :
    ∀ ps : List Nat,
      pass_loop files ps
        = some (ps.flatMap (fun p => (List.range files.length).flatMap
            (fun i => [DStep.semGenFile i p, DStep.semAnFile i p]))) := by
  intro ps
  induction ps with
  | nil => rfl
  | cons p pt ih =>
    simp only [pass_loop, pass_over_files_eq p files 0, if_pos hall, ih]
    simp

/-- With a rootless file in the queue, the first pass-loop iteration
crashes. -/
theorem pass_loop_crash (files : List FileInput)
    (hall : files.all FileInput.hasRoot = false) :
    ∀ (p : Nat) (ps : List Nat), pass_loop files (p :: ps) = none := by
  intro p ps
  simp only [pass_loop, pass_over_files_eq p files 0, hall]
  rfl

/-- The codegen loop in closed form. -/
theorem cg_over_files_eq (files : List FileInput) :
    ∀ f, cg_over_files f files
      = if files.all FileInput.hasRoot then
          some ((List.range files.length).map (fun i => DStep.cgFile (f + i)))
        else none := by
  induction files with
  | nil => intro f; rfl
  | cons a t ih =>
    intro f
    by_cases ha : a.hasRoot
    · rw [show cg_over_files f (a :: t)
          = (cg_over_files (f + 1) t).map (fun ts => DStep.cgFile f :: ts)
          from by simp [cg_over_files, ha]]
      rw [ih (f + 1)]
      by_cases ht : t.all FileInput.hasRoot
      · rw [if_pos ht, if_pos (by simp [List.all_cons, ha, ht])]
        have harg : (fun i : Nat => DStep.cgFile (f + Nat.succ i))
            = fun i => DStep.cgFile (f + 1 + i) := by
          funext i
          rw [show f + Nat.succ i = f + 1 + i from by omega]
        simp only [List.length_cons]
        rw [List.range_succ_eq_map, List.map_cons, List.map_map]
        try simp only [Function.comp_def]
        rw [harg]
        simp
      · rw [if_neg ht, if_neg (by simp [ht])]
        rfl
    · rw [show cg_over_files f (a :: t) = none
          from by simp [cg_over_files, ha]]
      rw [if_neg (by simp [ha])]

/-- `compile_write_binary` in closed form: the full driver trace when
every queued file has a root, and a crash (`none`) otherwise. -/
theorem compile_write_binary_eq (files : List FileInput) :
    compile_write_binary files
      = if files.all FileInput.hasRoot then
          some (parseSegment 0 files
            ++ (List.range 10).flatMap (fun p =>
                (List.range files.length).flatMap (fun f =>
                  [DStep.semGenFile f p, DStep.semAnFile f p]))
            ++ (List.range files.length).map DStep.cgFile
            ++ [DStep.writeBinary])
        else none := by
  by_cases hall : files.all FileInput.hasRoot
  · rw [if_pos hall]
    unfold compile_write_binary
    rw [pass_loop_ok files hall, cg_over_files_eq files 0, if_pos hall]
    simp
  · have hall' : files.all FileInput.hasRoot = false := by
      revert hall
      cases files.all FileInput.hasRoot <;> simp
    rw [if_neg hall]
    unfold compile_write_binary
    rw [show (List.range 10) = 0 :: [1, 2, 3, 4, 5, 6, 7, 8, 9] from rfl,
      pass_loop_crash files hall' 0 [1, 2, 3, 4, 5, 6, 7, 8, 9]]
    rfl

/-- C3 (counterexample): the claim says a registered handler whose
declared pass number is greater than the running pass is skipped.  The
dispatch loop performs no such comparison: a handler declaring pass 5
still fires during pass 0, and its `pass` field is overwritten with the
running pass. -/
theorem c3_handler_fires_despite_larger_pass :
    (handler_dispatch [{ type_handler := .fnK, pass := 5 }] .fnK 0).2 = true
    ∧ (handler_dispatch [{ type_handler := .fnK, pass := 5 }] .fnK 0).1
      = [{ type_handler := .fnK, pass := 0 }] := by
  decide

/-- C3 (amended): the dispatch loop performs no pass-based skipping:
whether a handler fires depends only on whether some handler's
`type_handler` matches the node's kind — never on any pass number —
and every handler in the post-dispatch list is either untouched or has
had its `pass` field overwritten with the running pass. -/
theorem c3_amended :
    ∀ (hs : List Handler) (k : NodeKind) (p : Int),
      ((handler_dispatch hs k p).2 = hs.any (fun h => h.type_handler == k))
      ∧ (∀ h' ∈ (handler_dispatch hs k p).1, h' ∈ hs ∨ h'.pass = p) := by
  intro hs k p
  induction hs with
  | nil => exact ⟨rfl, by intro h' hh; cases hh⟩
  | cons a t ih =>
    constructor
    · by_cases hm : a.type_handler = k
      · simp [handler_dispatch, hm]
      · simp only [handler_dispatch, if_neg hm, List.any_cons]
        have : (a.type_handler == k) = false := by
          simp [hm]
        simp [this, ih.1]
    · intro h' hh
      by_cases hm : a.type_handler = k
      · simp only [handler_dispatch, if_pos hm] at hh
        rcases List.mem_cons.mp hh with h1 | h1
        · right
          rw [h1]
        · left
          exact List.mem_cons_of_mem _ h1
      · simp only [handler_dispatch, if_neg hm] at hh
        rcases List.mem_cons.mp hh with h1 | h1
        · left
          rw [h1]
          exact List.mem_cons_self _ _
        · rcases ih.2 h' h1 with h2 | h2
          · exact .inl (List.mem_cons_of_mem _ h2)
          · exact .inr h2

/-- C3 (witness for the amended claim): the amended theorem applied to
a one-handler list — the matching handler fires and its pass field
holds the running pass afterwards. -/
theorem c3_amended_witness :
    ((handler_dispatch [{ type_handler := .blockK, pass := 3 }] .blockK 7).2
      = [({ type_handler := .blockK, pass := 3 } : Handler)].any
          (fun h => h.type_handler == .blockK))
    ∧ (({ type_handler := .blockK, pass := 7 } : Handler)
        ∈ [({ type_handler := .blockK, pass := 3 } : Handler)]
      ∨ ({ type_handler := .blockK, pass := 7 } : Handler).pass = 7) :=
  ⟨(c3_amended [{ type_handler := .blockK, pass := 3 }] .blockK 7).1,
   (c3_amended [{ type_handler := .blockK, pass := 3 }] .blockK 7).2
     { type_handler := .blockK, pass := 7 } (by decide)⟩

/-- C6 (confirmed): when lexing reported no errors the driver invokes
the parser twice on the token stream; the first invocation's AST is
deleted and only its error list decides whether to proceed; the AST
kept for later phases is the second invocation's, and the second
invocation happens only when the first reported no errors (otherwise
the parser ran exactly once and no AST is kept). -/
theorem c6_double_parse :
    ∀ (lexE : List String) (parse : Nat → ParseOut),
      lexE = [] →
      (((parse 0).errors = [] →
          parse_file lexE parse
            = { kept := some (parse 1).root, invocations := 2 })
       ∧ ((parse 0).errors ≠ [] →
          parse_file lexE parse = { kept := none, invocations := 1 })) := by
  intro lexE parse hlex
  subst hlex
  constructor
  · intro h0
    simp [parse_file, h0]
  · intro h0
    simp [parse_file, List.isEmpty_iff, h0]

/-- C6 (witness): the theorem applied to a stateful parser whose first
invocation builds root 5 and whose second builds root 7 — the kept AST
is root 7, the first run's result having been discarded. -/
theorem c6_double_parse_witness :
    parse_file [] (fun i => if i = 0 then ⟨5, []⟩ else ⟨7, []⟩)
      = { kept := some 7, invocations := 2 } :=
  (c6_double_parse [] (fun i => if i = 0 then ⟨5, []⟩ else ⟨7, []⟩) rfl).1 rfl

/-- C10 (code bug): the claim says the highlighter's colour selection
reads only in-bounds token indices, inspecting the following and
preceding tokens only when they exist.  The `Symbol` case of
`set_colour` reads `tokens[j + 1]` with no bound check — out of bounds
when the covering symbol is the last token — and, when that neighbour
is not an open parenthesis, reads `tokens[j - 1]` with `j` unsigned —
at `j = 0` the index wraps around and the read is out of bounds.  Both
concrete inputs below crash the model; a symbol followed by `(` is
handled in bounds for contrast. -/
theorem c10_symbol_neighbour_out_of_bounds :
    set_colour 0 [{ type := .symbolT, offset := 0, raw := "x" }] = none
    ∧ set_colour 0 [{ type := .symbolT, offset := 0, raw := "x" },
        { type := .otherT, offset := 1, raw := " " }] = none
    ∧ set_colour 0 [{ type := .symbolT, offset := 0, raw := "x" },
        { type := .openParenT, offset := 1, raw := "(" }]
      = some [Colour.blue] := by
  refine ⟨?_, ?_, ?_⟩ <;> decide

/-- A block of a flat-mapped list is a sublist of the whole. -/
theorem sublist_flatMap_of_mem {α β : Type} {x : α} {l : List α}
    (g : α → List β) (h : x ∈ l) : (g x).Sublist (l.flatMap g) := by
  induction l with
  | nil => cases h
  | cons a t ih =>
    rw [List.flatMap_cons]
    rcases List.mem_cons.mp h with h1 | h1
    · subst h1
      exact List.sublist_append_left _ _
    · exact (ih h1).trans (List.sublist_append_right _ _)

/-- Elements drawn from blocks of strictly increasing index of a
flat-mapped range occur in that order in the concatenation. -/
theorem pair_sublist_flatMap_range {α : Type} (g : Nat → List α) :
    ∀ {n p q : Nat}, p < q → q < n → ∀ {x y : α}, x ∈ g p → y ∈ g q →
      ([x, y]).Sublist ((List.range n).flatMap g) := by
  intro n
  induction n with
  | zero =>
    intro p q _ hq
    exact absurd hq (Nat.not_lt_zero q)
  | succ n ih =>
    intro p q hpq hq x y hx hy
    rw [List.range_succ, List.flatMap_append]
    by_cases hqn : q < n
    · exact (ih hpq hqn hx hy).trans (List.sublist_append_left _ _)
    · have hq_eq : q = n := by omega
      have hx' : [x].Sublist ((List.range n).flatMap g) :=
        List.singleton_sublist.mpr
          (List.mem_flatMap.mpr ⟨p, List.mem_range.mpr (by omega), hx⟩)
      have hy' : [y].Sublist ([n].flatMap g) := by
        simp only [List.flatMap_cons, List.flatMap_nil, List.append_nil]
        exact List.singleton_sublist.mpr (hq_eq ▸ hy)
      exact hx'.append hy'

/-- The parse segment of the driver trace contains no pass-loop step. -/
theorem semGenFile_not_mem_parseSegment (f p : Nat) :
    ∀ (i : Nat) (files : List FileInput),
      DStep.semGenFile f p ∉ parseSegment i files := by
  intro i files
  induction files generalizing i with
  | nil => simp [parseSegment]
  | cons a t ih =>
    simp only [parseSegment, List.mem_append]
    rintro (h | h)
    · by_cases h1 : a.lexErrors.isEmpty <;>
        by_cases h2 : a.parseErrors1.isEmpty <;>
          simp [parse_file_steps, h1, h2] at h
    · exact ih (i + 1) h

/-- C7 (counterexample): the claim says the pass loop runs passes
`0..max_pass` where `max_pass` is the maximum pass declared by any
registered handler.  With handler lists all declaring pass 0,
`find_total_passes` is 0, so the claim predicts the single pass 0 — yet
the driver trace of a clean one-file queue contains a pass-5 step: the
loop is the literal `for(int pass = 0; pass < 10; pass++)` and
`find_total_passes` is never called. -/
theorem c7_pass_loop_ignores_declared_passes :
    find_total_passes [{ type_handler := .blockK, pass := 0 }]
        [{ type_handler := .fnK, pass := 0 }] = 0
    ∧ DStep.semGenFile 0 5
      ∈ (compile_write_binary [(⟨[], [], []⟩ : FileInput)]).getD [] := by
  constructor
  · rfl
  · decide

/-- C7 (amended): whenever the run completes (every queued file has a
root — otherwise the pass loop crashes at its first call), the pass
loop runs the fixed passes 0..9 regardless of the handlers' declared
pass numbers: a pass-loop step exists exactly for file indices below
the queue length and passes below 10; within a pass, semantic
generation precedes semantic analysis for each file and files are
processed in queue order; steps of a lower pass precede all steps of a
higher pass; and code generation runs (once per file) only after the
whole pass loop. -/
theorem c7_amended :
    ∀ (files : List FileInput) (f p f' q : Nat) (tr : List DStep),
      compile_write_binary files = some tr →
      (DStep.semGenFile f p ∈ tr → f < files.length ∧ p < 10)
      ∧ (f < files.length → p < 10 →
          [DStep.semGenFile f p, DStep.semAnFile f p].Sublist tr)
      ∧ (p < q → q < 10 → f < files.length → f' < files.length →
          [DStep.semGenFile f p, DStep.semGenFile f' q].Sublist tr)
      ∧ (f < f' → f' < files.length → p < 10 →
          [DStep.semGenFile f p, DStep.semGenFile f' p].Sublist tr)
      ∧ (f < files.length → p < 10 → f' < files.length →
          [DStep.semGenFile f p, DStep.cgFile f'].Sublist tr) := by
  intro files f p f' q tr htr
  set n := files.length with hn
  set A := parseSegment 0 files with hA
  set B := (List.range 10).flatMap (fun p =>
      (List.range n).flatMap (fun f =>
        [DStep.semGenFile f p, DStep.semAnFile f p])) with hB
  set C := (List.range n).map DStep.cgFile with hC
  have hall : files.all FileInput.hasRoot = true := by
    by_contra hfalse
    have hf2 : files.all FileInput.hasRoot = false := by
      revert hfalse
      cases files.all FileInput.hasRoot <;> simp
    rw [compile_write_binary_eq, hf2] at htr
    simp at htr
  have hcomp : tr = ((A ++ B) ++ C) ++ [DStep.writeBinary] := by
    rw [compile_write_binary_eq, if_pos hall] at htr
    have h := Option.some_inj.mp htr
    rw [← h]
  have hBsub : B.Sublist tr := by
    rw [hcomp]
    exact ((List.sublist_append_right A B).trans
      (List.sublist_append_left (A ++ B) C)).trans
        (List.sublist_append_left ((A ++ B) ++ C) [DStep.writeBinary])
  refine ⟨?_, ?_, ?_, ?_, ?_⟩
  · intro h
    rw [hcomp] at h
    rcases List.mem_append.mp h with h | h
    · rcases List.mem_append.mp h with h | h
      · rcases List.mem_append.mp h with h | h
        · exact absurd h (semGenFile_not_mem_parseSegment f p 0 files)
        · rcases List.mem_flatMap.mp h with ⟨p1, hp1, h⟩
          rcases List.mem_flatMap.mp h with ⟨f1, hf1, h⟩
          simp only [List.mem_cons, List.mem_singleton] at h
          rcases h with h | h | h
          · cases h
            exact ⟨List.mem_range.mp hf1, List.mem_range.mp hp1⟩
          · cases h
          · cases h
      · rcases List.mem_map.mp h with ⟨f1, _, h⟩
        cases h
    · simp at h
  · intro hf hp
    have h1 : [DStep.semGenFile f p, DStep.semAnFile f p].Sublist
        ((List.range n).flatMap (fun f =>
          [DStep.semGenFile f p, DStep.semAnFile f p])) :=
      sublist_flatMap_of_mem
        (fun f => [DStep.semGenFile f p, DStep.semAnFile f p])
        (List.mem_range.mpr hf)
    have h2 : ((List.range n).flatMap (fun f =>
        [DStep.semGenFile f p, DStep.semAnFile f p])).Sublist B :=
      sublist_flatMap_of_mem
        (fun p => (List.range n).flatMap (fun f =>
          [DStep.semGenFile f p, DStep.semAnFile f p]))
        (List.mem_range.mpr hp)
    exact (h1.trans h2).trans hBsub
  · intro hpq hq hf hf'
    have h1 : [DStep.semGenFile f p, DStep.semGenFile f' q].Sublist B :=
      pair_sublist_flatMap_range _ hpq hq
        (List.mem_flatMap.mpr ⟨f, List.mem_range.mpr hf, by simp⟩)
        (List.mem_flatMap.mpr ⟨f', List.mem_range.mpr hf', by simp⟩)
    exact h1.trans hBsub
  · intro hff hf' hp
    have h1 : [DStep.semGenFile f p, DStep.semGenFile f' p].Sublist
        ((List.range n).flatMap (fun f =>
          [DStep.semGenFile f p, DStep.semAnFile f p])) :=
      pair_sublist_flatMap_range _ hff hf' (by simp) (by simp)
    have h2 : ((List.range n).flatMap (fun f =>
        [DStep.semGenFile f p, DStep.semAnFile f p])).Sublist B :=
      sublist_flatMap_of_mem
        (fun p => (List.range n).flatMap (fun f =>
          [DStep.semGenFile f p, DStep.semAnFile f p]))
        (List.mem_range.mpr hp)
    exact (h1.trans h2).trans hBsub
  · intro hf hp hf'
    rw [hcomp]
    have hx : [DStep.semGenFile f p].Sublist (A ++ B) :=
      List.singleton_sublist.mpr (List.mem_append.mpr (.inr
        (List.mem_flatMap.mpr ⟨p, List.mem_range.mpr hp,
          List.mem_flatMap.mpr ⟨f, List.mem_range.mpr hf, by simp⟩⟩)))
    have hy : [DStep.cgFile f'].Sublist C :=
      List.singleton_sublist.mpr
        (List.mem_map.mpr ⟨f', List.mem_range.mpr hf', rfl⟩)
    exact (hx.append hy).trans
      (List.sublist_append_left ((A ++ B) ++ C) [DStep.writeBinary])

/-- C7 (witness for the amended claim): applied to a clean two-file
queue — pass 2 of file 1 precedes pass 7 of file 0, and a pass step
precedes a codegen step. -/
theorem c7_amended_witness :
    [DStep.semGenFile 1 2, DStep.semGenFile 0 7].Sublist
        ((compile_write_binary [(⟨[], [], []⟩ : FileInput),
          (⟨[], [], []⟩ : FileInput)]).getD [])
    ∧ [DStep.semGenFile 0 9, DStep.cgFile 1].Sublist
        ((compile_write_binary [(⟨[], [], []⟩ : FileInput),
          (⟨[], [], []⟩ : FileInput)]).getD []) :=
  ⟨(c7_amended [(⟨[], [], []⟩ : FileInput), (⟨[], [], []⟩ : FileInput)]
      1 2 0 7
      ((compile_write_binary [(⟨[], [], []⟩ : FileInput),
        (⟨[], [], []⟩ : FileInput)]).getD []) rfl).2.2.1
      (by decide) (by decide) (by decide) (by decide),
   (c7_amended [(⟨[], [], []⟩ : FileInput), (⟨[], [], []⟩ : FileInput)]
      0 9 1 0
      ((compile_write_binary [(⟨[], [], []⟩ : FileInput),
        (⟨[], [], []⟩ : FileInput)]).getD []) rfl).2.2.2.2
      (by decide) (by decide) (by decide)⟩
